import Mathlib

/-!
Shallow embedding of `src/rename_sequences.py`, a tool that renames DICOM
sequence folders to `oldName_<sanitized SequenceName tag>`.

Python strings are modelled as Lean `String` (lists of `Char`); the
sanitization pipeline of `get_sequence_name` is embedded step by step:
`"".join(c if c.isalnum() or c in ('_','-') else '_' for c in s)` then
`.strip()` then `.replace(' ', '_')` then `.replace('__', '_')`.
Python's `str.replace` scans left to right and replaces non-overlapping
occurrences in a single pass, which `replaceDD` reproduces.
Python's Unicode `str.isalnum` is modelled by `Char.isAlphanum`; the
claims under study only depend on its value at ASCII punctuation.
-/

namespace RenameSequences

/-- One character of the generator expression in `get_sequence_name`:
keep alphanumerics, underscore and hyphen, replace anything else by `_`. -/
def keepChar (c : Char) : Char :=
  if c.isAlphanum || c = '_' || c = '-' then c else '_'

/-- Python `str.strip()`: drop leading and trailing whitespace. -/
def pyStrip (l : List Char) : List Char :=
  ((l.dropWhile Char.isWhitespace).reverse.dropWhile Char.isWhitespace).reverse

/-- Python `str.replace(' ', '_')` (single-character pattern, hence a map). -/
def replaceSpace (l : List Char) : List Char :=
  l.map (fun c => if c = ' ' then '_' else c)

/-- Python `str.replace('__', '_')`: one left-to-right pass replacing
non-overlapping occurrences of `__` by `_`. -/
def replaceDD : List Char → List Char
  | [] => []
  | [c] => [c]
  | c1 :: c2 :: rest =>
    if c1 = '_' && c2 = '_' then '_' :: replaceDD rest
    else c1 :: replaceDD (c2 :: rest)

/-- The whole sanitization pipeline of `get_sequence_name`, on `List Char`. -/
def sanitizeL (l : List Char) : List Char :=
  replaceDD (replaceSpace (pyStrip (l.map keepChar)))

/-- The sanitization pipeline of `get_sequence_name`, on `String`. -/
def sanitize (s : String) : String :=
  String.mk (sanitizeL s.data)

/-- Does the list contain two adjacent underscores? -/
def hasDD : List Char → Bool
  | c1 :: c2 :: rest => (c1 = '_' && c2 = '_') || hasDD (c2 :: rest)
  | _ => false

/-- A character the sanitizer is allowed to emit. -/
def allowedChar (c : Char) : Bool :=
  c.isAlphanum || c = '_' || c = '-'

example : sanitize "T1 AXIAL" = "T1_AXIAL" := by decide
example : sanitize "..." = "__" := by decide
example : sanitize "__" = "_" := by decide

lemma keepChar_allowed (c : Char) : allowedChar (keepChar c) = true := by
  unfold keepChar allowedChar
  split
  case isTrue h => exact h
  case isFalse h => decide

lemma allowedChar_keepChar_eq (c : Char) (h : allowedChar c = true) :
    keepChar c = c := by
  unfold allowedChar at h
  unfold keepChar
  rw [if_pos h]

lemma allowedChar_ne_space (c : Char) (h : allowedChar c = true) : c ≠ ' ' := by
  intro hc
  subst hc
  exact absurd h (by decide)

lemma allowedChar_not_whitespace (c : Char) (h : allowedChar c = true) :
    c.isWhitespace = false := by
  by_contra hw
  rw [Bool.not_eq_false] at hw
  simp only [Char.isWhitespace, Bool.or_eq_true, decide_eq_true_eq] at hw
  rcases hw with ((hc | hc) | hc) | hc <;> subst hc <;> exact absurd h (by decide)

lemma mem_replaceDD {c : Char} : ∀ {l : List Char}, c ∈ replaceDD l → c ∈ l := by
  intro l
  induction l using replaceDD.induct with
  | case1 => intro h; exact absurd h (by simp [replaceDD])
  | case2 d => intro h; rwa [replaceDD] at h
  | case3 c1 c2 rest hud ih =>
    intro h
    rw [replaceDD, if_pos hud] at h
    rw [Bool.and_eq_true, decide_eq_true_eq, decide_eq_true_eq] at hud
    rcases List.mem_cons.mp h with hc | hc
    · rw [hc, ← hud.1]; exact List.mem_cons_self _ _
    · exact List.mem_cons_of_mem _ (List.mem_cons_of_mem _ (ih hc))
  | case4 c1 c2 rest hud ih =>
    intro h
    rw [replaceDD, if_neg hud] at h
    rcases List.mem_cons.mp h with hc | hc
    · exact hc ▸ List.mem_cons_self _ _
    · exact List.mem_cons_of_mem _ (ih hc)

lemma replaceDD_eq_self : ∀ {l : List Char}, hasDD l = false → replaceDD l = l := by
  intro l
  induction l using replaceDD.induct with
  | case1 => intro _; rfl
  | case2 d => intro _; rfl
  | case3 c1 c2 rest hud ih =>
    intro h
    simp only [hasDD, Bool.or_eq_false_iff] at h
    exact absurd hud (by rw [h.1]; simp)
  | case4 c1 c2 rest hud ih =>
    intro h
    simp only [hasDD, Bool.or_eq_false_iff] at h
    rw [replaceDD, if_neg hud, ih h.2]

lemma dropWhile_eq_self_of {p : Char → Bool} :
    ∀ {l : List Char}, (∀ c ∈ l, p c = false) → l.dropWhile p = l := by
  intro l h
  cases l with
  | nil => rfl
  | cons c r => rw [List.dropWhile_cons, h c (List.mem_cons_self _ _)]; simp

lemma pyStrip_eq_self {l : List Char}
    (h : ∀ c ∈ l, Char.isWhitespace c = false) : pyStrip l = l := by
  unfold pyStrip
  rw [dropWhile_eq_self_of h, dropWhile_eq_self_of, List.reverse_reverse]
  intro c hc
  exact h c (List.mem_reverse.mp hc)

lemma mem_pyStrip {c : Char} {l : List Char} (h : c ∈ pyStrip l) : c ∈ l := by
  unfold pyStrip at h
  rw [List.mem_reverse] at h
  have h2 := (List.dropWhile_sublist (l := (l.dropWhile Char.isWhitespace).reverse)
    Char.isWhitespace).subset h
  rw [List.mem_reverse] at h2
  exact (List.dropWhile_sublist (l := l) Char.isWhitespace).subset h2

lemma sanitizeL_allowed {l : List Char} :
    ∀ c ∈ sanitizeL l, allowedChar c = true := by
  intro c hc
  unfold sanitizeL at hc
  have hc2 := mem_replaceDD hc
  unfold replaceSpace at hc2
  rcases List.mem_map.mp hc2 with ⟨a, ha, hac⟩
  by_cases hsp : a = ' '
  · rw [hsp] at hac; simp at hac; rw [← hac]; decide
  · rw [if_neg hsp] at hac
    subst hac
    have ha2 := mem_pyStrip ha
    rcases List.mem_map.mp ha2 with ⟨b, _, hb⟩
    rw [← hb]
    exact keepChar_allowed b

lemma sanitizeL_idem_aux {m : List Char}
    (hall : ∀ c ∈ m, allowedChar c = true) (hdd : hasDD m = false) :
    sanitizeL m = m := by
  unfold sanitizeL
  have h1 : m.map keepChar = m := by
    rw [List.map_congr_left (g := id), List.map_id]
    intro a ha
    exact allowedChar_keepChar_eq a (hall a ha)
  rw [h1]
  have h2 : pyStrip m = m :=
    pyStrip_eq_self (fun c hc => allowedChar_not_whitespace c (hall c hc))
  rw [h2]
  have h3 : replaceSpace m = m := by
    unfold replaceSpace
    rw [List.map_congr_left (g := id), List.map_id]
    intro a ha
    simp only [id]
    rw [if_neg (allowedChar_ne_space a (hall a ha))]
  rw [h3]
  exact replaceDD_eq_self hdd

/-!
The driver. The filesystem visible to one run is modelled as data:

* a sequence folder (`SeqDir`) carries its name, its directory listing in
  enumeration order (`entries`), and two environment oracles: whether
  `os.listdir` on it raises `OSError` (`listdirErr`, NOT caught by the
  source) and whether `os.rename` of it raises `OSError` (`renameErr`,
  caught at lines 96-101 of the source);
* reading the DICOM metadata of a file is an oracle attached to the file:
  `Except.error ()` models `pydicom.dcmread`/attribute access raising
  (caught at line 27), `Except.ok none` models `ds.get("SequenceName")`
  returning `None`, and `Except.ok (some v)` a tag whose `str()` is `v`;
* a patient folder holds sequence folders and plain files; the root holds
  patient folders and plain files.

An `Except.error` result of the driver models the Python process dying on
an uncaught exception; `Except.ok (state, n)` models a completed run with
final filesystem `state` and rename counter `n`.
-/

/-- The result of `pydicom.dcmread` + `ds.get("SequenceName")` on one file:
raised exception, missing tag, or tag value (as the string `str()` gives). -/
abbrev ReadResult := Except Unit (Option String)

deriving instance DecidableEq for Except

/-- A directory entry of a sequence folder, as `os.listdir` + `os.path.isfile`
see it: a plain file (with the read oracle for its contents) or a subfolder. -/
inductive Entry where
  | file (name : String) (readResult : ReadResult)
  | subdir (name : String)
deriving DecidableEq

/-- Python `str.lower()`, character by character (ASCII-faithful). -/
def pyLower (l : List Char) : List Char := l.map Char.toLower

/-- A qualifying file name per line 44 of the source:
`'.' not in file or file.lower().endswith(('.dcm', '.dicom'))`. -/
def isDicomName (file : String) : Bool :=
  !(file.data.contains '.') ||
    (".dcm".data.isSuffixOf (pyLower file.data) ||
      ".dicom".data.isSuffixOf (pyLower file.data))

/-- `os.path.join`, with the POSIX separator. -/
def pyJoin (a b : String) : String := a ++ "/" ++ b

/-- The file `find_first_dicom` returns: its full path plus the read oracle
of its contents. -/
structure DFile where
  path : String
  readResult : ReadResult
deriving DecidableEq

/-- `get_sequence_name` (lines 7-32): on a raised read or a missing tag
return `None`; on a falsy (empty) tag fall through to `None`; otherwise
sanitize and return the result unless it sanitized to empty. -/
def get_sequence_name (r : ReadResult) : Option String :=
  match r with
  | .error _ => none
  | .ok none => none
  | .ok (some v) =>
    if v = "" then none
    else
      let cleaned := sanitize v
      if cleaned = "" then none else some cleaned

/-- The loop of `find_first_dicom` (lines 40-45) over the folder listing:
first entry that is a file with a qualifying name. -/
def find_first_dicom_list (folderPath : String) : List Entry → Option DFile
  | [] => none
  | Entry.file n r :: rest =>
    if isDicomName n then some ⟨pyJoin folderPath n, r⟩
    else find_first_dicom_list folderPath rest
  | Entry.subdir _ :: rest => find_first_dicom_list folderPath rest

/-- A sequence folder on disk, with its environment oracles. -/
structure SeqDir where
  name : String
  entries : List Entry
  listdirErr : Bool
  renameErr : Bool
deriving DecidableEq

/-- `find_first_dicom` (lines 35-46): `os.listdir` may raise, and nothing
in the source catches it; otherwise scan the listing. -/
def find_first_dicom (folderPath : String) (d : SeqDir) : Except Unit (Option DFile) :=
  if d.listdirErr then .error () else .ok (find_first_dicom_list folderPath d.entries)

/-- A directory entry of a patient folder: a sequence folder or a plain file. -/
inductive PEntry where
  | dir (d : SeqDir)
  | file (name : String)
deriving DecidableEq

/-- The name `os.listdir` reports for a patient-folder entry. -/
def PEntry.entryName : PEntry → String
  | .dir d => d.name
  | .file n => n

/-- `os.path.exists(new_folder_path)` within the patient folder. -/
def existsAt (st : List PEntry) (n : String) : Bool :=
  st.any (fun e => e.entryName = n)

/-- The sequence folder currently named `n` in the patient folder, if any
(the target of `os.path.join(patient_path, seq_folder_name)`). -/
def lookupDir : List PEntry → String → Option SeqDir
  | [], _ => none
  | PEntry.dir d :: rest, n => if d.name = n then some d else lookupDir rest n
  | PEntry.file _ :: rest, n => lookupDir rest n

/-- The effect of a successful `os.rename(seq_folder_path, new_folder_path)`:
the folder keeps its contents and oracles, only its name changes. -/
def renameDir (st : List PEntry) (old new : String) : List PEntry :=
  st.map (fun e =>
    match e with
    | PEntry.dir d => if d.name = old then PEntry.dir { d with name := new } else e
    | PEntry.file _ => e)

/-- One iteration of the sequence-folder loop (lines 78-104) on the current
patient-folder state `st`, for snapshot name `seqName`. The returned `Bool`
says whether `rename_count` was incremented (a rename happened). -/
def processSeqFolder (patientPath : String) (st : List PEntry) (seqName : String) :
    Except Unit (List PEntry × Bool) :=
  match lookupDir st seqName with
  | none => .ok (st, false)
  | some d =>
    match find_first_dicom (pyJoin patientPath seqName) d with
    | .error e => .error e
    | .ok none => .ok (st, false)
    | .ok (some f) =>
      match get_sequence_name f.readResult with
      | none => .ok (st, false)
      | some newName =>
        let newFolderName := seqName ++ "_" ++ newName
        if seqName ≠ newFolderName ∧ existsAt st newFolderName = false then
          if d.renameErr then .ok (st, false)
          else .ok (renameDir st seqName newFolderName, true)
        else .ok (st, false)

/-- The sequence-folder loop over the snapshot `names` taken at line 70,
threading the patient-folder state and summing the rename counter. -/
def processSeqFolders (patientPath : String) :
    List String → List PEntry → Except Unit (List PEntry × Nat)
  | [], st => .ok (st, 0)
  | n :: rest, st =>
    match processSeqFolder patientPath st n with
    | .error e => .error e
    | .ok (st2, did) =>
      match processSeqFolders patientPath rest st2 with
      | .error e => .error e
      | .ok (st3, k) => .ok (st3, (if did then 1 else 0) + k)

/-- A patient folder: its name, its listing, and whether `os.listdir` on it
(line 70, uncaught) raises. -/
structure PatientDir where
  name : String
  entries : List PEntry
  listdirErr : Bool
deriving DecidableEq

/-- The snapshot `mr_sequence_folders`: subdirectory names, in listing order. -/
def dirNames (es : List PEntry) : List String :=
  es.filterMap (fun e =>
    match e with
    | PEntry.dir d => some d.name
    | PEntry.file _ => none)

/-- Processing of one patient folder (lines 64-111). An empty snapshot is
only reported, then the loop continues. -/
def processPatient (rootPath : String) (p : PatientDir) :
    Except Unit (PatientDir × Nat) :=
  if p.listdirErr then .error ()
  else
    match processSeqFolders (pyJoin rootPath p.name) (dirNames p.entries) p.entries with
    | .error e => .error e
    | .ok (st, k) => .ok ({ p with entries := st }, k)

/-- A root-folder entry: a patient folder or a plain file (filtered out by
the `os.path.isdir` check at line 58). -/
inductive REntry where
  | dir (p : PatientDir)
  | file (name : String)
deriving DecidableEq

/-- The `patient_folders` snapshot at line 58. -/
def patientNames (es : List REntry) : List String :=
  es.filterMap (fun e =>
    match e with
    | REntry.dir p => some p.name
    | REntry.file _ => none)

/-- The patient loop of `rename_mr_sequence_folders` (lines 64-111). -/
def processPatients (rootPath : String) :
    List REntry → Except Unit (List REntry × Nat)
  | [] => .ok ([], 0)
  | REntry.dir p :: rest =>
    match processPatient rootPath p with
    | .error e => .error e
    | .ok (p2, k) =>
      match processPatients rootPath rest with
      | .error e => .error e
      | .ok (rest2, m) => .ok (REntry.dir p2 :: rest2, k + m)
  | REntry.file n :: rest =>
    match processPatients rootPath rest with
    | .error e => .error e
    | .ok (rest2, m) => .ok (REntry.file n :: rest2, m)

/-- `rename_mr_sequence_folders` (lines 49-113): with no patient folders,
report and return (0 renames); otherwise run the patient loop. -/
def rename_mr_sequence_folders (rootPath : String) (root : List REntry) :
    Except Unit (List REntry × Nat) :=
  if patientNames root = [] then .ok (root, 0)
  else processPatients rootPath root

/-! Helper lemmas for the claim theorems. -/

lemma ne_append_suffix (n s : String) : n ≠ n ++ "_" ++ s := by
  intro h
  have hlen := congrArg String.length h
  rw [String.length_append, String.length_append] at hlen
  have h1 : ("_" : String).length = 1 := rfl
  rw [h1] at hlen
  omega

lemma processSeqFolder_eq_of_found (patientPath : String) (st : List PEntry)
    (n : String) (d : SeqDir) (f : DFile) (s : String)
    (hl : lookupDir st n = some d)
    (hf : find_first_dicom (pyJoin patientPath n) d = .ok (some f))
    (hg : get_sequence_name f.readResult = some s) :
    processSeqFolder patientPath st n =
      if existsAt st (n ++ "_" ++ s) = false then
        (if d.renameErr then .ok (st, false)
         else .ok (renameDir st n (n ++ "_" ++ s), true))
      else .ok (st, false) := by
  simp only [processSeqFolder, hl, hf, hg]
  have hne := ne_append_suffix n s
  split_ifs <;> first | rfl | (exfalso; tauto)

/-- C2: the claim as written is false on the code: `"..."` sanitizes to
`"__"` (three underscores collapsed by one non-overlapping pass of
`replace('__','_')`), and sanitizing again gives `"_"`. -/
theorem c2_counterexample_dots :
    sanitize (sanitize "...") ≠ sanitize "..." := by decide

/-- C2 (amended): sanitization is idempotent on every input whose
once-sanitized form contains no two adjacent underscores; in general the
single pass of `replace('__','_')` can leave a `__` that a second
application would collapse further. -/
theorem c2_sanitize_idempotent_unless_double_underscore (s : String)
    (h : hasDD (sanitize s).data = false) :
    sanitize (sanitize s) = sanitize s := by
  show String.mk (sanitizeL (sanitizeL s.data)) = String.mk (sanitizeL s.data)
  exact congrArg String.mk
    (sanitizeL_idem_aux (fun c hc => sanitizeL_allowed c hc) h)

theorem c2_witness :
    hasDD (sanitize "T1 AXIAL").data = false ∧
      sanitize (sanitize "T1 AXIAL") = sanitize "T1 AXIAL" :=
  ⟨by decide, c2_sanitize_idempotent_unless_double_underscore "T1 AXIAL" (by decide)⟩

/-- C4: every character of the sanitized output is alphanumeric, `_` or
`-`, and in particular the output contains no space. -/
theorem c4_sanitize_charset (s : String) (c : Char)
    (h : c ∈ (sanitize s).data) :
    (c.isAlphanum = true ∨ c = '_' ∨ c = '-') ∧ c ≠ ' ' := by
  have hall := sanitizeL_allowed (l := s.data) c h
  constructor
  · have h2 := hall
    unfold allowedChar at h2
    simp only [Bool.or_eq_true, decide_eq_true_eq] at h2
    tauto
  · exact allowedChar_ne_space c hall

theorem c4_witness :
    '_' ∈ (sanitize "a b").data ∧
      (('_' : Char).isAlphanum = true ∨ '_' = '_' ∨ '_' = '-') ∧ ('_' : Char) ≠ ' ' :=
  ⟨by decide, c4_sanitize_charset "a b" '_' (by decide)⟩

/-- C10: whenever `get_sequence_name` returns a name it is non-empty, and
the computed destination `old + "_" + name` differs from every current
name `old`, so the `seq_folder_name != new_folder_name` check never by
itself prevents a rename. -/
theorem c10_sequence_name_nonempty_and_new_name_differs (r : ReadResult) (s : String)
    (h : get_sequence_name r = some s) :
    s ≠ "" ∧ ∀ old : String, old ++ "_" ++ s ≠ old := by
  have hs : s ≠ "" := by
    cases r with
    | error e => simp [get_sequence_name] at h
    | ok o =>
      cases o with
      | none => simp [get_sequence_name] at h
      | some v =>
        simp only [get_sequence_name] at h
        by_cases hv : v = ""
        · rw [if_pos hv] at h; exact absurd h (by simp)
        · rw [if_neg hv] at h
          by_cases hc : sanitize v = ""
          · rw [if_pos hc] at h; exact absurd h (by simp)
          · rw [if_neg hc] at h
            injection h with h2
            rw [← h2]
            exact hc
  exact ⟨hs, fun old => Ne.symm (ne_append_suffix old s)⟩

theorem c10_witness :
    get_sequence_name (Except.ok (some "T1 AXIAL")) = some "T1_AXIAL" ∧
      ("T1_AXIAL" : String) ≠ "" ∧ "5" ++ "_" ++ "T1_AXIAL" ≠ "5" := by
  have h := c10_sequence_name_nonempty_and_new_name_differs
    (Except.ok (some "T1 AXIAL")) "T1_AXIAL" (by decide)
  exact ⟨by decide, h.1, h.2 "5"⟩

/-- C3: a rename (an `ok` step that increments the counter) happens only
when a sequence name was found for the folder's first qualifying file, the
computed destination name differs from the current name, and no entry
exists at the destination. -/
theorem c3_rename_requires_all_conditions (patientPath : String) (st : List PEntry)
    (n : String) (st' : List PEntry)
    (h : processSeqFolder patientPath st n = .ok (st', true)) :
    ∃ d f s, lookupDir st n = some d ∧
      find_first_dicom (pyJoin patientPath n) d = .ok (some f) ∧
      get_sequence_name f.readResult = some s ∧
      n ++ "_" ++ s ≠ n ∧
      existsAt st (n ++ "_" ++ s) = false := by
  cases hl : lookupDir st n with
  | none => simp only [processSeqFolder, hl] at h; simp at h
  | some d =>
    cases hf : find_first_dicom (pyJoin patientPath n) d with
    | error e =>
      simp only [processSeqFolder, hl, hf] at h
      exact Except.noConfusion h
    | ok o =>
      cases o with
      | none => simp only [processSeqFolder, hl, hf] at h; simp at h
      | some f =>
        cases hg : get_sequence_name f.readResult with
        | none => simp only [processSeqFolder, hl, hf, hg] at h; simp at h
        | some s =>
          refine ⟨d, f, s, rfl, hf, hg, Ne.symm (ne_append_suffix n s), ?_⟩
          simp only [processSeqFolder, hl, hf, hg] at h
          by_cases he : existsAt st (n ++ "_" ++ s) = false
          · exact he
          · rw [if_neg (fun hc => he hc.2)] at h
            simp at h

def c3St : List PEntry :=
  [PEntry.dir ⟨"5", [Entry.file "IM1" (Except.ok (some "T1 AXIAL"))], false, false⟩]

theorem c3_witness :
    ∃ d f s, lookupDir c3St "5" = some d ∧
      find_first_dicom (pyJoin "/r/P" "5") d = .ok (some f) ∧
      get_sequence_name f.readResult = some s ∧
      "5" ++ "_" ++ s ≠ "5" ∧
      existsAt c3St ("5" ++ "_" ++ s) = false :=
  c3_rename_requires_all_conditions "/r/P" c3St "5"
    [PEntry.dir ⟨"5_T1_AXIAL", [Entry.file "IM1" (Except.ok (some "T1 AXIAL"))], false, false⟩]
    (by decide)

/-- C5: when the first qualifying file of folder `n` yields sanitized name
`s`, the computed destination name is `n ++ "_" ++ s` — it is checked for
existence and, when free (and `os.rename` does not raise), the folder is
renamed to exactly that name. -/
theorem c5_destination_is_old_name_underscore_tag (patientPath : String)
    (st : List PEntry) (n : String) (d : SeqDir) (f : DFile) (s : String)
    (hl : lookupDir st n = some d)
    (hf : find_first_dicom (pyJoin patientPath n) d = .ok (some f))
    (hg : get_sequence_name f.readResult = some s) :
    processSeqFolder patientPath st n =
      if existsAt st (n ++ "_" ++ s) = false then
        (if d.renameErr then .ok (st, false)
         else .ok (renameDir st n (n ++ "_" ++ s), true))
      else .ok (st, false) :=
  processSeqFolder_eq_of_found patientPath st n d f s hl hf hg

def c5St : List PEntry :=
  [PEntry.dir ⟨"5", [Entry.file "IM1" (Except.ok (some "T1 AXIAL"))], false, false⟩]

def c5Dir : SeqDir := ⟨"5", [Entry.file "IM1" (Except.ok (some "T1 AXIAL"))], false, false⟩

def c5File : DFile := ⟨pyJoin (pyJoin "/r/P" "5") "IM1", Except.ok (some "T1 AXIAL")⟩

theorem c5_witness :
    (processSeqFolder "/r/P" c5St "5" =
      if existsAt c5St ("5" ++ "_" ++ "T1_AXIAL") = false then
        (if c5Dir.renameErr then .ok (c5St, false)
         else .ok (renameDir c5St "5" ("5" ++ "_" ++ "T1_AXIAL"), true))
      else .ok (c5St, false)) ∧
    renameDir c5St "5" ("5" ++ "_" ++ "T1_AXIAL") =
      [PEntry.dir ⟨"5_T1_AXIAL", [Entry.file "IM1" (Except.ok (some "T1 AXIAL"))], false, false⟩] :=
  ⟨c5_destination_is_old_name_underscore_tag "/r/P" c5St "5" c5Dir c5File "T1_AXIAL"
    (by decide) (by decide) (by decide), by decide⟩

/-- C6: if the metadata read of the first qualifying file raised, or the
tag is absent, or its value sanitizes to the empty string, then
`get_sequence_name` returns `None` and the folder's state is unchanged
(no rename, no counter increment). -/
theorem c6_read_failure_means_none_and_no_rename (patientPath : String)
    (st : List PEntry) (n : String) (d : SeqDir) (f : DFile)
    (hl : lookupDir st n = some d)
    (hf : find_first_dicom (pyJoin patientPath n) d = .ok (some f))
    (hr : f.readResult = .error () ∨ f.readResult = .ok none ∨
      ∃ v, f.readResult = .ok (some v) ∧ sanitize v = "") :
    get_sequence_name f.readResult = none ∧
      processSeqFolder patientPath st n = .ok (st, false) := by
  have hg : get_sequence_name f.readResult = none := by
    rcases hr with hr | hr | ⟨v, hr, hv⟩
    · rw [hr]; rfl
    · rw [hr]; rfl
    · rw [hr]
      simp only [get_sequence_name]
      by_cases hve : v = ""
      · rw [if_pos hve]
      · rw [if_neg hve]
        simp [hv]
  refine ⟨hg, ?_⟩
  simp only [processSeqFolder, hl, hf, hg]

def c6St : List PEntry := [PEntry.dir ⟨"7", [Entry.file "IM1" (Except.error ())], false, false⟩]

theorem c6_witness :
    get_sequence_name (Except.error () : ReadResult) = none ∧
      processSeqFolder "/r/P" c6St "7" = .ok (c6St, false) :=
  c6_read_failure_means_none_and_no_rename "/r/P" c6St "7"
    ⟨"7", [Entry.file "IM1" (Except.error ())], false, false⟩
    ⟨pyJoin (pyJoin "/r/P" "7") "IM1", Except.error ()⟩
    (by decide) (by decide) (Or.inl rfl)

/-- No entry of the listing is a file with a qualifying name. -/
def noQualifyingFile (es : List Entry) : Bool :=
  es.all (fun e =>
    match e with
    | Entry.file nm _ => !(isDicomName nm)
    | Entry.subdir _ => true)

lemma find_first_dicom_list_eq_none (p : String) :
    ∀ {es : List Entry}, noQualifyingFile es = true →
      find_first_dicom_list p es = none := by
  intro es
  induction es with
  | nil => intro _; rfl
  | cons e rest ih =>
    intro h
    rw [noQualifyingFile, List.all_cons, Bool.and_eq_true] at h
    cases e with
    | file nm r =>
      have hnm : isDicomName nm = false := by
        have := h.1
        simp only [Bool.not_eq_true'] at this
        exact this
      rw [find_first_dicom_list, hnm]
      simp only [Bool.false_eq_true, if_false]
      exact ih h.2
    | subdir nm =>
      rw [find_first_dicom_list]
      exact ih h.2

/-- C7: a folder with no qualifying file (no file without an extension and
none ending in `.dcm`/`.dicom`) makes Discovery return `None`, and the
folder's state is unchanged (no rename). -/
theorem c7_no_qualifying_file_no_rename (patientPath : String)
    (st : List PEntry) (n : String) (d : SeqDir)
    (hl : lookupDir st n = some d)
    (hle : d.listdirErr = false)
    (hq : noQualifyingFile d.entries = true) :
    find_first_dicom (pyJoin patientPath n) d = .ok none ∧
      processSeqFolder patientPath st n = .ok (st, false) := by
  have hf : find_first_dicom (pyJoin patientPath n) d = .ok none := by
    rw [find_first_dicom, hle]
    simp only [Bool.false_eq_true, if_false]
    rw [find_first_dicom_list_eq_none _ hq]
  exact ⟨hf, by simp only [processSeqFolder, hl, hf]⟩

def c7St : List PEntry :=
  [PEntry.dir ⟨"9", [Entry.file "report.pdf" (Except.ok (some "T2")), Entry.subdir "sub"],
    false, false⟩]

theorem c7_witness :
    find_first_dicom (pyJoin "/r/P" "9")
        ⟨"9", [Entry.file "report.pdf" (Except.ok (some "T2")), Entry.subdir "sub"], false, false⟩ =
      .ok none ∧
    processSeqFolder "/r/P" c7St "9" = .ok (c7St, false) :=
  c7_no_qualifying_file_no_rename "/r/P" c7St "9"
    ⟨"9", [Entry.file "report.pdf" (Except.ok (some "T2")), Entry.subdir "sub"], false, false⟩
    (by decide) (by decide) (by decide)

/-- C8: when an entry already exists at the computed destination path, the
whole patient-folder state is returned unchanged: the source folder keeps
its name and contents, the destination entry is untouched, and the rename
counter is not incremented. -/
theorem c8_existing_destination_blocks_rename (patientPath : String)
    (st : List PEntry) (n : String) (d : SeqDir) (f : DFile) (s : String)
    (hl : lookupDir st n = some d)
    (hf : find_first_dicom (pyJoin patientPath n) d = .ok (some f))
    (hg : get_sequence_name f.readResult = some s)
    (he : existsAt st (n ++ "_" ++ s) = true) :
    processSeqFolder patientPath st n = .ok (st, false) := by
  rw [processSeqFolder_eq_of_found patientPath st n d f s hl hf hg]
  rw [if_neg (by simp [he])]

def c8St : List PEntry :=
  [PEntry.dir ⟨"5", [Entry.file "IM1" (Except.ok (some "T1_AXIAL"))], false, false⟩,
   PEntry.dir ⟨"5_T1_AXIAL", [], false, false⟩]

theorem c8_witness :
    processSeqFolder "/r/P" c8St "5" = .ok (c8St, false) :=
  c8_existing_destination_blocks_rename "/r/P" c8St "5"
    ⟨"5", [Entry.file "IM1" (Except.ok (some "T1_AXIAL"))], false, false⟩
    ⟨pyJoin (pyJoin "/r/P" "5") "IM1", Except.ok (some "T1_AXIAL")⟩ "T1_AXIAL"
    (by decide) (by decide) (by decide) (by decide)

/-- No sequence folder in this patient listing has a raising `os.listdir`. -/
def seqListdirOk (es : List PEntry) : Bool :=
  es.all (fun e =>
    match e with
    | PEntry.dir d => !d.listdirErr
    | PEntry.file _ => true)

/-- No `os.listdir` on a patient folder or a sequence folder raises. -/
def rootListdirOk (root : List REntry) : Bool :=
  root.all (fun e =>
    match e with
    | REntry.dir p => !p.listdirErr && seqListdirOk p.entries
    | REntry.file _ => true)

lemma lookupDir_listdirOk : ∀ (st : List PEntry) (n : String) (d : SeqDir),
    seqListdirOk st = true → lookupDir st n = some d → d.listdirErr = false := by
  intro st
  induction st with
  | nil => intro n d _ hl; exact absurd hl (by simp [lookupDir])
  | cons e rest ih =>
    intro n d hok hl
    simp only [seqListdirOk, List.all_cons, Bool.and_eq_true] at hok
    have hrest : seqListdirOk rest = true := hok.2
    cases e with
    | dir d2 =>
      rw [lookupDir] at hl
      by_cases hn : d2.name = n
      · rw [if_pos hn] at hl
        injection hl with h2
        subst h2
        have h1 := hok.1
        simp only [Bool.not_eq_true'] at h1
        exact h1
      · rw [if_neg hn] at hl
        exact ih n d hrest hl
    | file nm =>
      rw [lookupDir] at hl
      exact ih n d hrest hl

lemma seqListdirOk_renameDir (old new : String) : ∀ (st : List PEntry),
    seqListdirOk st = true → seqListdirOk (renameDir st old new) = true := by
  intro st
  induction st with
  | nil => intro _; rfl
  | cons e rest ih =>
    intro h
    simp only [seqListdirOk, List.all_cons, Bool.and_eq_true] at h
    simp only [renameDir, List.map_cons]
    simp only [seqListdirOk, List.all_cons, Bool.and_eq_true]
    constructor
    · cases e with
      | dir d =>
        by_cases hn : d.name = old
        · simp only [if_pos hn]
          exact h.1
        · simp only [if_neg hn]
          exact h.1
      | file nm => rfl
    · exact ih h.2

lemma processSeqFolder_ok (patientPath : String) (st : List PEntry) (n : String)
    (hok : seqListdirOk st = true) :
    ∃ st' b, processSeqFolder patientPath st n = .ok (st', b) ∧
      seqListdirOk st' = true := by
  cases hl : lookupDir st n with
  | none => exact ⟨st, false, by simp only [processSeqFolder, hl], hok⟩
  | some d =>
    have hle : d.listdirErr = false := lookupDir_listdirOk st n d hok hl
    have hf : find_first_dicom (pyJoin patientPath n) d =
        .ok (find_first_dicom_list (pyJoin patientPath n) d.entries) := by
      rw [find_first_dicom, hle]
      simp
    cases ho : find_first_dicom_list (pyJoin patientPath n) d.entries with
    | none =>
      rw [ho] at hf
      exact ⟨st, false, by simp only [processSeqFolder, hl, hf], hok⟩
    | some f =>
      rw [ho] at hf
      cases hg : get_sequence_name f.readResult with
      | none => exact ⟨st, false, by simp only [processSeqFolder, hl, hf, hg], hok⟩
      | some s =>
        by_cases he : existsAt st (n ++ "_" ++ s) = false
        · by_cases hre : d.renameErr = true
          · refine ⟨st, false, ?_, hok⟩
            rw [processSeqFolder_eq_of_found patientPath st n d f s hl hf hg,
              if_pos he, if_pos hre]
          · refine ⟨renameDir st n (n ++ "_" ++ s), true, ?_,
              seqListdirOk_renameDir n (n ++ "_" ++ s) st hok⟩
            rw [processSeqFolder_eq_of_found patientPath st n d f s hl hf hg,
              if_pos he, if_neg hre]
        · refine ⟨st, false, ?_, hok⟩
          rw [processSeqFolder_eq_of_found patientPath st n d f s hl hf hg, if_neg he]

lemma processSeqFolders_ok (patientPath : String) : ∀ (names : List String)
    (st : List PEntry), seqListdirOk st = true →
    ∃ st' k, processSeqFolders patientPath names st = .ok (st', k) ∧
      seqListdirOk st' = true := by
  intro names
  induction names with
  | nil => intro st hok; exact ⟨st, 0, rfl, hok⟩
  | cons n rest ih =>
    intro st hok
    rcases processSeqFolder_ok patientPath st n hok with ⟨st2, b, h2, hok2⟩
    rcases ih st2 hok2 with ⟨st3, k, h3, hok3⟩
    exact ⟨st3, (if b then 1 else 0) + k, by simp only [processSeqFolders, h2, h3], hok3⟩

lemma processPatient_ok (rootPath : String) (p : PatientDir)
    (hp : p.listdirErr = false) (hok : seqListdirOk p.entries = true) :
    ∃ p' k, processPatient rootPath p = .ok (p', k) := by
  rcases processSeqFolders_ok (pyJoin rootPath p.name) (dirNames p.entries)
    p.entries hok with ⟨st, k, h, _⟩
  refine ⟨{ p with entries := st }, k, ?_⟩
  simp only [processPatient, hp, Bool.false_eq_true, if_false, h]

lemma processPatients_ok (rootPath : String) : ∀ (root : List REntry),
    rootListdirOk root = true →
    ∃ root' k, processPatients rootPath root = .ok (root', k) := by
  intro root
  induction root with
  | nil => intro _; exact ⟨[], 0, rfl⟩
  | cons e rest ih =>
    intro h
    simp only [rootListdirOk, List.all_cons, Bool.and_eq_true] at h
    have hrest : rootListdirOk rest = true := h.2
    rcases ih hrest with ⟨rest2, m, hm⟩
    cases e with
    | dir p =>
      have h1 := h.1
      simp only [Bool.and_eq_true, Bool.not_eq_true'] at h1
      rcases processPatient_ok rootPath p h1.1 h1.2 with ⟨p2, k, hk⟩
      exact ⟨REntry.dir p2 :: rest2, k + m, by simp only [processPatients, hk, hm]⟩
    | file nm =>
      exact ⟨REntry.file nm :: rest2, m, by simp only [processPatients, hm]⟩

def c9Root : List REntry :=
  [REntry.dir ⟨"P", [PEntry.dir ⟨"3", [], true, false⟩,
    PEntry.dir ⟨"4", [Entry.file "IM1" (Except.ok (some "T2"))], false, false⟩], false⟩]

/-- C9 counterexample: an `OSError` raised by `os.listdir` while searching
sequence folder `3` is not caught anywhere, so the whole run dies (models
the uncaught exception as `.error ()`); folder `4` is never reached. The
claim that every filesystem error arising while enumerating or searching
is reported and the run continues is false on the code. -/
theorem c9_counterexample_listdir_error_is_fatal :
    rename_mr_sequence_folders "/r" c9Root = .error () := by decide

/-- C9 (amended): metadata-read failures are swallowed and `os.rename`
failures are caught, reported and skipped, so a run over a tree in which no
`os.listdir` call raises always completes normally, whatever the read
results and rename outcomes; only an enumeration (`os.listdir`) error is
fatal (besides the clean no-selection exit at startup). -/
theorem c9_only_listdir_errors_are_fatal (rootPath : String) (root : List REntry)
    (h : rootListdirOk root = true) :
    ∃ root' k, rename_mr_sequence_folders rootPath root = .ok (root', k) := by
  rw [rename_mr_sequence_folders]
  by_cases hn : patientNames root = []
  · rw [if_pos hn]
    exact ⟨root, 0, rfl⟩
  · rw [if_neg hn]
    exact processPatients_ok rootPath root h

def c9OkRoot : List REntry :=
  [REntry.dir ⟨"P", [PEntry.dir ⟨"3", [Entry.file "IM1" (Except.error ())], false, false⟩,
    PEntry.dir ⟨"4", [Entry.file "IM2" (Except.ok (some "T2"))], false, true⟩], false⟩]

theorem c9_witness :
    rootListdirOk c9OkRoot = true ∧
      ∃ root' k, rename_mr_sequence_folders "/r" c9OkRoot = .ok (root', k) :=
  ⟨by decide, c9_only_listdir_errors_are_fatal "/r" c9OkRoot (by decide)⟩

def c1Root : List REntry :=
  [REntry.dir ⟨"Patient1",
    [PEntry.dir ⟨"5", [Entry.file "IM1" (Except.ok (some "T1 AXIAL"))], false, false⟩], false⟩]

def c1RootOnce : List REntry :=
  [REntry.dir ⟨"Patient1",
    [PEntry.dir ⟨"5_T1_AXIAL", [Entry.file "IM1" (Except.ok (some "T1 AXIAL"))],
      false, false⟩], false⟩]

def c1RootTwice : List REntry :=
  [REntry.dir ⟨"Patient1",
    [PEntry.dir ⟨"5_T1_AXIAL_T1_AXIAL", [Entry.file "IM1" (Except.ok (some "T1 AXIAL"))],
      false, false⟩], false⟩]

/-- C1 (code bug): the first run renames `5` to `5_T1_AXIAL`, but a second
run on the already-processed tree performs one more rename, to
`5_T1_AXIAL_T1_AXIAL` (counter 1, not 0): the computed destination
`seq_folder_name + "_" + new_name` always strictly extends the current
name, so the `seq_folder_name != new_folder_name` guard (whose source
comment says it prevents repeated runs) can never short-circuit. -/
theorem c1_second_run_renames_again :
    rename_mr_sequence_folders "/r" c1Root = .ok (c1RootOnce, 1) ∧
      rename_mr_sequence_folders "/r" c1RootOnce = .ok (c1RootTwice, 1) :=
  ⟨by decide, by decide⟩

end RenameSequences
